import Mathlib

/-!
Verification development for the `reactive_streams` repository.

The repository consists of TypeScript interface declarations
(`src/types.d.ts`, mirrored by `src/unnamed/part_000`): the four
Reactive Streams interfaces `Publisher`, `Subscriber`, `Subscription`
and `Processor`.  Part A below embeds those declarations as data, read
off the source text.  The repository ships no runtime implementation,
so the behavioural components (demand counter, subscription producer
loop, processor stage) are modelled from the specification; each such
definition says so in its doc comment.
-/

namespace ReactiveStreams

/-! ## Part A: the TypeScript declarations, embedded as data.

Transcribed from `src/types.d.ts` (identical to `src/unnamed/part_000`).
Every type expression appearing in the source has at most one type
argument, so a single-argument application constructor suffices. -/

/-- A TypeScript type expression as it appears in the declarations:
a type variable, a non-generic named type, a one-argument generic
application, or `void`. -/
inductive TSType where
  | var (name : String)
  | base (name : String)
  | app (name : String) (arg : TSType)
  | voidT
deriving DecidableEq

/-- A method type parameter, possibly with an `extends` constraint. -/
structure TypeParam where
  name : String
  constraint : Option TSType
deriving DecidableEq

/-- A method signature of an interface. -/
structure Method where
  name : String
  typeParams : List TypeParam
  params : List (String × TSType)
  ret : TSType
deriving DecidableEq

/-- An interface declaration: name, whether it carries the `export`
keyword, its type parameters, its `extends` clause, and its methods. -/
structure InterfaceDecl where
  name : String
  exported : Bool
  typeParams : List TypeParam
  extendsClauses : List TSType
  methods : List Method
deriving DecidableEq

/-- `subscribe<S extends T>(s: Subscriber<S>): void` — the single method
of `Publisher<T>` (src/types.d.ts line 25, src/unnamed/part_000 line 2). -/
def subscribeMethod : Method :=
  { name := "subscribe"
    typeParams := [{ name := "S", constraint := some (TSType.var "T") }]
    params := [("s", TSType.app "Subscriber" (TSType.var "S"))]
    ret := TSType.voidT }

/-- `export interface Publisher<T>` from src/types.d.ts. -/
def publisherDecl : InterfaceDecl :=
  { name := "Publisher"
    exported := true
    typeParams := [{ name := "T", constraint := none }]
    extendsClauses := []
    methods := [subscribeMethod] }

/-- `export interface Subscriber<T>` from src/types.d.ts. -/
def subscriberDecl : InterfaceDecl :=
  { name := "Subscriber"
    exported := true
    typeParams := [{ name := "T", constraint := none }]
    extendsClauses := []
    methods :=
      [ { name := "onSubscribe", typeParams := []
          params := [("s", TSType.base "Subscription")], ret := TSType.voidT }
      , { name := "onNext", typeParams := []
          params := [("t", TSType.var "T")], ret := TSType.voidT }
      , { name := "onError", typeParams := []
          params := [("e", TSType.base "Error")], ret := TSType.voidT }
      , { name := "onComplete", typeParams := []
          params := [], ret := TSType.voidT } ] }

/-- `export interface Subscription` from src/types.d.ts. -/
def subscriptionDecl : InterfaceDecl :=
  { name := "Subscription"
    exported := true
    typeParams := []
    extendsClauses := []
    methods :=
      [ { name := "request", typeParams := []
          params := [("n", TSType.base "number")], ret := TSType.voidT }
      , { name := "cancel", typeParams := []
          params := [], ret := TSType.voidT } ] }

/-- `interface Processor<T, R> extends Subscriber<T>, Publisher<R> {}`
from src/types.d.ts line 119: note the declaration carries no `export`
keyword, in both source files. -/
def processorDecl : InterfaceDecl :=
  { name := "Processor"
    exported := false
    typeParams := [{ name := "T", constraint := none }, { name := "R", constraint := none }]
    extendsClauses :=
      [TSType.app "Subscriber" (TSType.var "T"), TSType.app "Publisher" (TSType.var "R")]
    methods := [] }

/-- The module: the four interface declarations in source order. -/
def moduleDecls : List InterfaceDecl :=
  [publisherDecl, subscriberDecl, subscriptionDecl, processorDecl]

/-- Names of the interfaces the module exports (its external boundary). -/
def exportedInterfaces : List String :=
  (moduleDecls.filter (fun d => d.exported)).map (fun d => d.name)

/-- Substitute type `u` for the type variable `x`. -/
def substTy (x : String) (u : TSType) : TSType → TSType
  | TSType.var y => if y = x then u else TSType.var y
  | TSType.base n => TSType.base n
  | TSType.app n a => TSType.app n (substTy x u a)
  | TSType.voidT => TSType.voidT

/-- Does type `arg` satisfy an optional `extends` constraint, given a
subtype oracle `sub`? -/
def satisfiesConstraint (sub : TSType → TSType → Bool) (arg : TSType) :
    Option TSType → Bool
  | none => true
  | some c => sub arg c

/-- Instantiate a one-type-parameter generic method at type `arg`:
if `arg` satisfies the parameter's `extends` constraint, return the
parameter types of the instantiated signature. -/
def instTypeArg (m : Method) (sub : TSType → TSType → Bool) (arg : TSType) :
    Option (List TSType) :=
  match m.typeParams with
  | [tp] =>
      if satisfiesConstraint sub arg tp.constraint then
        some (m.params.map (fun p => substTy tp.name arg p.2))
      else none
  | _ => none

/-! ## Part B: the runtime, modelled from the specification.

The repository contains only the interface declarations; the reference
runtime (demand counter, subscription, producer loop, processor) exists
only in the specification, so the definitions below are modelled from
its words. -/

/-- `Long.MAX_VALUE`, the "effectively unbounded" demand sentinel
(maximum positive value of a 64-bit signed integer). -/
def longMax : Int := 9223372036854775807

/-- Modelled from the spec: Demand Counter `increase(n)` (spec 4.1) —
"adds n to the outstanding count, saturating at the `effectively
unbounded` sentinel rather than overflowing". -/
def increase (d : Int) (n : Int) : Int := min (d + n) longMax

/-- Modelled from the spec: Demand Counter `decrease(k)` (spec 4.1) —
"subtracts k (k ≤ current outstanding)". -/
def decrease (d : Int) (k : Int) : Int := d - k

/-- Modelled from the spec: Demand Counter `isPositive()` (spec 4.1) —
"reports whether production may proceed". -/
def isPositive (d : Int) : Bool := decide (0 < d)

/-- An operation on the Demand Counter: an `increase(n)` from the
subscriber side or a `decrease(k)` from the producer side. -/
inductive CtrOp where
  | inc (n : Int)
  | dec (k : Int)
deriving DecidableEq

/-- Apply one counter operation. -/
def ctrApply (d : Int) : CtrOp → Int
  | CtrOp.inc n => increase d n
  | CtrOp.dec k => decrease d k

/-- Run a sequence of counter operations from value `d`. -/
def ctrRun (d : Int) (ops : List CtrOp) : Int := ops.foldl ctrApply d

/-- Validity of a counter-operation sequence from value `d`:
increases are strictly positive (spec: a non-positive request is a
contract violation handled before the counter is touched), and each
decrease takes at most the current outstanding demand (spec 4.1:
"k ≤ current outstanding, since a compliant producer never sends more
than requested"). -/
def ctrValid (d : Int) : List CtrOp → Bool
  | [] => true
  | CtrOp.inc n :: t => decide (0 < n) && ctrValid (increase d n) t
  | CtrOp.dec k :: t => decide (0 ≤ k) && decide (k ≤ d) && ctrValid (decrease d k) t

/-- A signal delivered to a Subscriber (spec 3: the tagged variant
{Subscribe, Next(T), Error, Complete}). -/
inductive Signal (α : Type) where
  | subscribe
  | next (a : α)
  | error
  | complete
deriving DecidableEq

/-- Is the signal `subscribe`? -/
def isSub {α : Type} : Signal α → Bool
  | Signal.subscribe => true
  | _ => false

/-- Is the signal an `onNext`? -/
def isNext {α : Type} : Signal α → Bool
  | Signal.next _ => true
  | _ => false

/-- Is the signal terminal (`onError` or `onComplete`)? -/
def isTerm {α : Type} : Signal α → Bool
  | Signal.error => true
  | Signal.complete => true
  | _ => false

/-- Modelled from the spec: the state of one Subscription (spec 2, 4.2):
the elements the producer has not yet sent, the outstanding demand
(Demand Counter), the cancelled flag, whether a terminal signal has been
delivered, and the log of signals delivered to the Subscriber so far,
in order. -/
structure SubState (α : Type) where
  pending : List α
  demand : Int
  cancelled : Bool
  terminated : Bool
  log : List (Signal α)
deriving DecidableEq

/-- Result of one run of the drain loop over the pending elements:
remaining pending elements, remaining demand, signals emitted, and
whether the stream completed. -/
structure DrainRes (α : Type) where
  pending : List α
  demand : Int
  emitted : List (Signal α)
  completed : Bool

/-- Modelled from the spec: one run of the producer drain loop over
the pending elements (spec 4.2): "drain repeatedly checks (demand > 0
AND not cancelled AND has-next-element), emits onNext, decrements
demand, and on exhaustion emits the terminal signal". -/
def drainList {α : Type} (dem : Int) : List α → DrainRes α
  | [] => { pending := [], demand := dem, emitted := [Signal.complete], completed := true }
  | a :: rest =>
      if 0 < dem then
        let r := drainList (dem - 1) rest
        { r with emitted := Signal.next a :: r.emitted }
      else
        { pending := a :: rest, demand := dem, emitted := [], completed := false }

/-- Modelled from the spec: the drain invocation on a Subscription:
a no-op once cancelled or terminated, otherwise it runs the producer
loop and appends the emitted signals to the log. -/
def drain {α : Type} (s : SubState α) : SubState α :=
  if s.cancelled || s.terminated then s
  else
    let r := drainList s.demand s.pending
    { pending := r.pending, demand := r.demand, cancelled := s.cancelled,
      terminated := r.completed, log := s.log ++ r.emitted }

/-- Modelled from the spec: `Subscription.request(n)` (spec 4.2):
a no-op after cancellation or a terminal signal; fails (signals onError
to the Subscriber, terminating the Subscription) if `n` is not strictly
positive; otherwise adds `n` to the Demand Counter and wakes the
producer loop. -/
def request {α : Type} (s : SubState α) (n : Int) : SubState α :=
  if s.cancelled || s.terminated then s
  else if n ≤ 0 then
    { s with terminated := true, log := s.log ++ [Signal.error] }
  else
    drain { s with demand := increase s.demand n }

/-- Modelled from the spec: `Subscription.cancel()` (spec 4.2):
"idempotent; sets a cancelled flag observed by the producer loop before
its next emission attempt". -/
def cancel {α : Type} (s : SubState α) : SubState α :=
  { s with cancelled := true }

/-- An operation a Subscriber may invoke on its Subscription. -/
inductive Op where
  | request (n : Int)
  | cancel
deriving DecidableEq

/-- Apply one Subscription operation. -/
def step {α : Type} (s : SubState α) : Op → SubState α
  | Op.request n => request s n
  | Op.cancel => cancel s

/-- Modelled from the spec: the state right after `subscribe`
(spec 4.3): a fresh Subscription over the source `src`, with
`onSubscribe` delivered before any other signal and no demand yet. -/
def init {α : Type} (src : List α) : SubState α :=
  { pending := src, demand := 0, cancelled := false, terminated := false,
    log := [Signal.subscribe] }

/-- Run a Subscription over source `src` through a sequence of
Subscriber operations. -/
def run {α : Type} (src : List α) (ops : List Op) : SubState α :=
  ops.foldl step (init src)

/-- Number of `onNext` signals in a log. -/
def nextCount {α : Type} (l : List (Signal α)) : Nat := l.countP isNext

/-- Cumulative sum of all `n` passed to `request(n)` in an operation
sequence. -/
def reqSum : List Op → Int
  | [] => 0
  | Op.request n :: t => n + reqSum t
  | Op.cancel :: t => reqSum t

/-- Cumulative sum of the strictly positive `n` passed to `request(n)`
in an operation sequence. -/
def posSum : List Op → Int
  | [] => 0
  | Op.request n :: t => (if 0 < n then n else 0) + posSum t
  | Op.cancel :: t => posSum t

/-! ### Processor stage, modelled from the spec (4.4). -/

/-- A command a Processor issues on its upstream Subscription. -/
inductive UpCmd where
  | request (n : Int)
  | cancel
deriving DecidableEq

/-- Modelled from the spec: the observable state of a Processor stage
(spec 4.4): the signals it has delivered downstream, the commands it has
issued on its upstream Subscription, and whether its downstream lifecycle
has terminated. -/
structure PState (β : Type) where
  downLog : List (Signal β)
  upCmds : List UpCmd
  terminated : Bool
deriving DecidableEq

/-- Modelled from the spec: the Processor's handling of an upstream
`onNext(a)` with element transform `f` (spec 4.4): applies the transform
and forwards the result downstream; if the transform throws (modelled by
`Except.error`), the exception is caught and converted into a single
`onError` downstream followed by `cancel` upstream — it never propagates
to the caller. -/
def procOnNext {α β : Type} (f : α → Except String β) (s : PState β) (a : α) :
    PState β :=
  if s.terminated then s
  else
    match f a with
    | Except.ok b => { s with downLog := s.downLog ++ [Signal.next b] }
    | Except.error _ =>
        { downLog := s.downLog ++ [Signal.error]
          upCmds := s.upCmds ++ [UpCmd.cancel]
          terminated := true }

/-- Modelled from the spec: the Processor's handling of `cancel` from its
downstream Subscriber (spec 4.4): "on receiving `cancel`, forwards
`cancel` to upstream". -/
def procCancel {β : Type} (s : PState β) : PState β :=
  { s with upCmds := s.upCmds ++ [UpCmd.cancel], terminated := true }

/-- Modelled from the spec: the Processor's handling of `request(n)` from
its downstream Subscriber (spec 4.4): passes the demand through to the
upstream Subscription. -/
def procRequest {β : Type} (s : PState β) (n : Int) : PState β :=
  { s with upCmds := s.upCmds ++ [UpCmd.request n] }

/-! ## Lemmas: signal classifiers -/

@[simp] theorem isSub_subscribe {α : Type} : isSub (Signal.subscribe : Signal α) = true := rfl

@[simp] theorem isSub_next {α : Type} (a : α) : isSub (Signal.next a) = false := rfl

@[simp] theorem isSub_error {α : Type} : isSub (Signal.error : Signal α) = false := rfl

@[simp] theorem isSub_complete {α : Type} : isSub (Signal.complete : Signal α) = false := rfl

@[simp] theorem isNext_subscribe {α : Type} : isNext (Signal.subscribe : Signal α) = false := rfl

@[simp] theorem isNext_next {α : Type} (a : α) : isNext (Signal.next a) = true := rfl

@[simp] theorem isNext_error {α : Type} : isNext (Signal.error : Signal α) = false := rfl

@[simp] theorem isNext_complete {α : Type} : isNext (Signal.complete : Signal α) = false := rfl

@[simp] theorem isTerm_subscribe {α : Type} : isTerm (Signal.subscribe : Signal α) = false := rfl

@[simp] theorem isTerm_next {α : Type} (a : α) : isTerm (Signal.next a) = false := rfl

@[simp] theorem isTerm_error {α : Type} : isTerm (Signal.error : Signal α) = true := rfl

@[simp] theorem isTerm_complete {α : Type} : isTerm (Signal.complete : Signal α) = true := rfl

/-! ## Lemmas: the drain loop -/

theorem drainList_demand_nonneg {α : Type} (l : List α) (dem : Int) (h : 0 ≤ dem) :
    0 ≤ (drainList dem l).demand := by
  induction l generalizing dem with
  | nil => simpa [drainList] using h
  | cons a rest ih =>
    by_cases hd : 0 < dem
    · simpa [drainList, hd] using ih (dem - 1) (by omega)
    · simpa [drainList, hd] using h

theorem drainList_demand_le {α : Type} (l : List α) (dem : Int) :
    (drainList dem l).demand ≤ dem := by
  induction l generalizing dem with
  | nil => simp [drainList]
  | cons a rest ih =>
    by_cases hd : 0 < dem
    · have h := ih (dem - 1)
      simp only [drainList, if_pos hd]
      omega
    · simp [drainList, hd]

theorem drainList_next_bound {α : Type} (l : List α) (dem : Int) :
    (nextCount (drainList dem l).emitted : Int) + (drainList dem l).demand ≤ dem := by
  induction l generalizing dem with
  | nil => simp [drainList, nextCount]
  | cons a rest ih =>
    by_cases hd : 0 < dem
    · have h := ih (dem - 1)
      simp only [drainList, if_pos hd, nextCount, List.countP_cons, isNext_next] at h ⊢
      push_cast at h ⊢
      omega
    · simp [drainList, hd, nextCount]

theorem drainList_emitted_shape {α : Type} (l : List α) (dem : Int) :
    ∃ ns : List α, (drainList dem l).emitted =
      ns.map Signal.next ++
        (if (drainList dem l).completed then [Signal.complete] else []) := by
  induction l generalizing dem with
  | nil => exact ⟨[], by simp [drainList]⟩
  | cons a rest ih =>
    by_cases hd : 0 < dem
    · obtain ⟨ns, hns⟩ := ih (dem - 1)
      refine ⟨a :: ns, ?_⟩
      simp only [drainList, if_pos hd, List.map_cons, List.cons_append]
      exact congrArg (Signal.next a :: ·) hns
    · exact ⟨[], by simp [drainList, hd]⟩

theorem countP_map_next {α : Type} (p : Signal α → Bool) (ns : List α)
    (h : ∀ a : α, p (Signal.next a) = false) : (ns.map Signal.next).countP p = 0 := by
  rw [List.countP_map]
  simp [Function.comp, h]

/-! ## Lemmas: the Subscription state machine -/

theorem request_pos_eq {α : Type} (s : SubState α) (n : Int)
    (hc : s.cancelled = false) (ht : s.terminated = false) (hn : 0 < n) :
    request s n =
      { pending := (drainList (increase s.demand n) s.pending).pending
        demand := (drainList (increase s.demand n) s.pending).demand
        cancelled := false
        terminated := (drainList (increase s.demand n) s.pending).completed
        log := s.log ++ (drainList (increase s.demand n) s.pending).emitted } := by
  have hn' : ¬ n ≤ 0 := not_le.mpr hn
  simp [request, hc, ht, hn', drain]

theorem request_nonpos_eq {α : Type} (s : SubState α) (n : Int)
    (hc : s.cancelled = false) (ht : s.terminated = false) (hn : n ≤ 0) :
    request s n = { s with terminated := true, log := s.log ++ [Signal.error] } := by
  simp [request, hc, ht, hn]

/-- The invariant maintained by every Subscription state reachable from
`init`: demand stays within `[0, longMax]`, the log starts with the one
`onSubscribe` and contains no other, the log contains one terminal signal
when the state is terminated and none otherwise, and any terminal signal
sits at the very end of the log. -/
def Inv {α : Type} (s : SubState α) : Prop :=
  0 ≤ s.demand ∧ s.demand ≤ longMax ∧
  (∃ rest, s.log = Signal.subscribe :: rest ∧ rest.countP isSub = 0) ∧
  s.log.countP isTerm = (if s.terminated then 1 else 0) ∧
  s.log.dropLast.countP isTerm = 0

theorem increase_nonneg (d n : Int) (hd : 0 ≤ d) (hn : 0 < n) : 0 ≤ increase d n := by
  simp only [increase, longMax, le_min_iff]
  omega

theorem increase_le_longMax (d n : Int) : increase d n ≤ longMax := min_le_right _ _

theorem step_inv {α : Type} (s : SubState α) (op : Op) (h : Inv s) : Inv (step s op) := by
  obtain ⟨h1, h2, ⟨rest, hlog, hrest⟩, h4, h5⟩ := h
  cases op with
  | cancel =>
    exact ⟨h1, h2, ⟨rest, hlog, hrest⟩, h4, h5⟩
  | request n =>
    by_cases hact : s.cancelled || s.terminated
    · simp only [step, request, if_pos hact]
      exact ⟨h1, h2, ⟨rest, hlog, hrest⟩, h4, h5⟩
    · have hc : s.cancelled = false := by
        cases hcv : s.cancelled <;> simp [hcv] at hact ⊢
      have ht : s.terminated = false := by
        cases htv : s.terminated <;> simp [htv] at hact ⊢
      have h4' : s.log.countP isTerm = 0 := by rw [h4, ht]; rfl
      by_cases hn : n ≤ 0
      · rw [step, request_nonpos_eq s n hc ht hn]
        refine ⟨h1, h2, ⟨rest ++ [Signal.error], ?_, ?_⟩, ?_, ?_⟩ <;> dsimp only
        · rw [hlog]; rfl
        · simp [List.countP_append, hrest]
        · simp [List.countP_append, h4']
        · rw [List.dropLast_concat, h4']
      · have hpos : 0 < n := by omega
        rw [step, request_pos_eq s n hc ht hpos]
        obtain ⟨ns, hshape⟩ := drainList_emitted_shape s.pending (increase s.demand n)
        have hmapSub : (ns.map Signal.next).countP isSub = 0 :=
          countP_map_next _ ns (fun a => rfl)
        have hmapTerm : (ns.map Signal.next).countP isTerm = 0 :=
          countP_map_next _ ns (fun a => rfl)
        refine ⟨?_, ?_, ⟨rest ++ (drainList (increase s.demand n) s.pending).emitted, ?_, ?_⟩, ?_, ?_⟩ <;> dsimp only
        · exact drainList_demand_nonneg _ _ (increase_nonneg _ _ h1 hpos)
        · exact le_trans (drainList_demand_le _ _) (increase_le_longMax _ _)
        · rw [hlog]; rfl
        · rw [hshape]
          simp [List.countP_append, hrest, hmapSub]
        · rw [hshape, List.countP_append, h4']
          by_cases hcomp : (drainList (increase s.demand n) s.pending).completed
          · simp [hcomp, List.countP_append, hmapTerm]
          · simp [hcomp, List.countP_append, hmapTerm]
        · by_cases hcomp : (drainList (increase s.demand n) s.pending).completed
          · rw [hshape, hcomp, if_pos rfl, ← List.append_assoc, List.dropLast_concat]
            simp [List.countP_append, h4', hmapTerm]
          · have hall : (s.log ++ (drainList (increase s.demand n) s.pending).emitted).countP isTerm = 0 := by
              rw [hshape]
              simp [List.countP_append, h4', hmapTerm, hcomp]
            have hle : (s.log ++ (drainList (increase s.demand n) s.pending).emitted).dropLast.countP isTerm
                ≤ (s.log ++ (drainList (increase s.demand n) s.pending).emitted).countP isTerm :=
              (List.dropLast_sublist _).countP_le _
            omega

theorem foldl_inv {α : Type} (ops : List Op) (s : SubState α) (h : Inv s) :
    Inv (ops.foldl step s) := by
  induction ops generalizing s with
  | nil => exact h
  | cons op t ih => exact ih (step s op) (step_inv s op h)

theorem init_inv {α : Type} (src : List α) : Inv (init src) := by
  refine ⟨le_refl 0, ?_, ⟨[], rfl, rfl⟩, rfl, rfl⟩
  show (0 : Int) ≤ longMax
  norm_num [longMax]

theorem run_inv {α : Type} (src : List α) (ops : List Op) : Inv (run src ops) :=
  foldl_inv ops (init src) (init_inv src)

/-! ## Lemmas: demand accounting -/

theorem request_next_bound {α : Type} (s : SubState α) (n : Int) :
    (nextCount (request s n).log : Int) + (request s n).demand
      ≤ (nextCount s.log : Int) + s.demand + (if 0 < n then n else 0) := by
  by_cases hact : s.cancelled || s.terminated
  · simp only [request, if_pos hact]
    have : (0 : Int) ≤ if 0 < n then n else 0 := by split <;> omega
    omega
  · have hc : s.cancelled = false := by
      cases hcv : s.cancelled <;> simp [hcv] at hact ⊢
    have ht : s.terminated = false := by
      cases htv : s.terminated <;> simp [htv] at hact ⊢
    by_cases hn : n ≤ 0
    · rw [request_nonpos_eq s n hc ht hn]
      have hifz : (if 0 < n then n else 0) = 0 := by simp; omega
      dsimp only
      rw [hifz]
      simp [nextCount, List.countP_append]
    · have hpos : 0 < n := by omega
      rw [request_pos_eq s n hc ht hpos]
      dsimp only
      have hb := drainList_next_bound s.pending (increase s.demand n)
      have hinc : increase s.demand n ≤ s.demand + n := min_le_left _ _
      rw [if_pos hpos]
      simp only [nextCount, List.countP_append] at hb ⊢
      push_cast at hb ⊢
      omega

theorem step_next_bound {α : Type} (s : SubState α) (op : Op) :
    (nextCount (step s op).log : Int) + (step s op).demand
      ≤ (nextCount s.log : Int) + s.demand +
        (match op with | Op.request n => if 0 < n then n else 0 | Op.cancel => 0) := by
  cases op with
  | request n => exact request_next_bound s n
  | cancel => simp [step, cancel]

theorem foldl_next_bound {α : Type} (ops : List Op) (s : SubState α) :
    (nextCount (ops.foldl step s).log : Int) + (ops.foldl step s).demand
      ≤ (nextCount s.log : Int) + s.demand + posSum ops := by
  induction ops generalizing s with
  | nil => simp [posSum]
  | cons op t ih =>
    have h1 := step_next_bound s op
    have h2 := ih (step s op)
    cases op with
    | request n =>
      have hps : posSum (Op.request n :: t) = (if 0 < n then n else 0) + posSum t := rfl
      rw [List.foldl_cons] at *
      rw [hps]
      simp only [] at h1
      omega
    | cancel =>
      have hps : posSum (Op.cancel :: t) = posSum t := rfl
      rw [List.foldl_cons] at *
      rw [hps]
      simp only [] at h1
      omega

theorem request_demand_nonneg {α : Type} (s : SubState α) (n : Int) (h : 0 ≤ s.demand) :
    0 ≤ (request s n).demand := by
  by_cases hact : s.cancelled || s.terminated
  · simp only [request, if_pos hact]
    exact h
  · have hc : s.cancelled = false := by
      cases hcv : s.cancelled <;> simp [hcv] at hact ⊢
    have ht : s.terminated = false := by
      cases htv : s.terminated <;> simp [htv] at hact ⊢
    by_cases hn : n ≤ 0
    · rw [request_nonpos_eq s n hc ht hn]
      exact h
    · have hpos : 0 < n := by omega
      rw [request_pos_eq s n hc ht hpos]
      exact drainList_demand_nonneg _ _ (increase_nonneg _ _ h hpos)

theorem foldl_demand_nonneg {α : Type} (ops : List Op) (s : SubState α) (h : 0 ≤ s.demand) :
    0 ≤ (ops.foldl step s).demand := by
  induction ops generalizing s with
  | nil => exact h
  | cons op t ih =>
    refine ih (step s op) ?_
    cases op with
    | request n => exact request_demand_nonneg s n h
    | cancel => exact h

/-! ## Claims -/

/-- C1, as stated, is false on the modelled runtime: the claim bounds the
`onNext` count by the cumulative sum of ALL `n` passed to `request(n)`,
but a non-positive `request` lowers that sum without retracting
deliveries already made.  Concretely, over the source `[1,2,3,4,5,6]`,
`request(5)` delivers five `onNext` signals and a following `request(-3)`
only signals `onError`; the cumulative sum of all requested `n` is `2`,
yet five `onNext` were delivered. -/
theorem c1_counterexample :
    nextCount (run ([1,2,3,4,5,6] : List Int) [Op.request 5, Op.request (-3)]).log = 5 ∧
    reqSum [Op.request 5, Op.request (-3)] = 2 ∧
    ¬ ((nextCount (run ([1,2,3,4,5,6] : List Int)
          [Op.request 5, Op.request (-3)]).log : Int)
        ≤ reqSum [Op.request 5, Op.request (-3)]) := by
  refine ⟨by decide, by decide, by decide⟩

/-- C1 (amended): for every Subscription execution, the total number of
`onNext` signals delivered to the Subscriber never exceeds the cumulative
sum of the STRICTLY POSITIVE `n` passed in `request(n)` calls on that
Subscription (non-positive requests grant no demand; they terminate the
Subscription with `onError`). -/
theorem c1_demand_never_violated (α : Type) (src : List α) (ops : List Op) :
    (nextCount (run src ops).log : Int) ≤ posSum ops := by
  have hb := foldl_next_bound ops (init (α := α) src)
  have hd := foldl_demand_nonneg ops (init (α := α) src) (le_refl 0)
  have h0 : nextCount (init (α := α) src).log = 0 := rfl
  have h0' : (init (α := α) src).demand = 0 := rfl
  rw [h0, h0'] at hb
  show (nextCount (ops.foldl step (init src)).log : Int) ≤ posSum ops
  omega

/-- C2: on every Subscription execution, `onSubscribe` is delivered
exactly once, and that delivery strictly precedes every other signal:
the log is `subscribe` followed by a tail containing no `subscribe`. -/
theorem c2_onSubscribe_once_first (α : Type) (src : List α) (ops : List Op) :
    ∃ rest, (run src ops).log = Signal.subscribe :: rest ∧
      rest.countP isSub = 0 := by
  obtain ⟨-, -, h3, -, -⟩ := run_inv src ops
  exact h3

/-- C3: on every Subscription execution, at most one terminal signal
(`onError` or `onComplete`) is ever delivered, and no signal of any kind
follows it: the log contains at most one terminal signal and none outside
its last position. -/
theorem c3_terminal_once_last (α : Type) (src : List α) (ops : List Op) :
    (run src ops).log.countP isTerm ≤ 1 ∧
    (run src ops).log.dropLast.countP isTerm = 0 := by
  obtain ⟨-, -, -, h4, h5⟩ := run_inv src ops
  refine ⟨?_, h5⟩
  rw [h4]
  split <;> omega

/-- C4: on an active Subscription (not cancelled, not terminated),
`request(n)` with non-positive `n` signals `onError` to the Subscriber
and terminates the Subscription; in particular a Subscriber that calls
`request(-1)` right after `onSubscribe` receives `onError` and never
any `onNext`. -/
theorem c4_nonpositive_request_errors :
    (∀ (α : Type) (s : SubState α) (n : Int),
      s.cancelled = false → s.terminated = false → n ≤ 0 →
      request s n = { s with terminated := true, log := s.log ++ [Signal.error] }) ∧
    (∀ src : List Int,
      run src [Op.request (-1)] =
        { pending := src, demand := 0, cancelled := false, terminated := true,
          log := [Signal.subscribe, Signal.error] }) := by
  constructor
  · intro α s n hc ht hn
    exact request_nonpos_eq s n hc ht hn
  · intro src
    rfl

/-- Witness for C4: concrete active state with `request 0`, and the
`request(-1)`-first scenario over source `[5]`. -/
theorem c4_witness :
    request ({ pending := [1,2], demand := 0, cancelled := false, terminated := false,
               log := [Signal.subscribe] } : SubState Int) 0 =
      { pending := [1,2], demand := 0, cancelled := false, terminated := true,
        log := [Signal.subscribe, Signal.error] } ∧
    run ([5] : List Int) [Op.request (-1)] =
      { pending := [5], demand := 0, cancelled := false, terminated := true,
        log := [Signal.subscribe, Signal.error] } :=
  ⟨c4_nonpositive_request_errors.1 Int _ 0 rfl rfl (by decide),
   c4_nonpositive_request_errors.2 [5]⟩

/-! ## Lemmas: the demand counter under operation sequences -/

theorem ctrValid_append (l₁ l₂ : List CtrOp) (d : Int)
    (h : ctrValid d (l₁ ++ l₂) = true) : ctrValid d l₁ = true := by
  induction l₁ generalizing d with
  | nil => rfl
  | cons op t ih =>
    cases op with
    | inc n =>
      simp only [List.cons_append, ctrValid, Bool.and_eq_true] at h ⊢
      exact ⟨h.1, ih (increase d n) h.2⟩
    | dec k =>
      simp only [List.cons_append, ctrValid, Bool.and_eq_true] at h ⊢
      exact ⟨h.1, ih (decrease d k) h.2⟩

theorem ctrRun_bounds (ops : List CtrOp) (d : Int) (hd0 : 0 ≤ d) (hdM : d ≤ longMax)
    (hv : ctrValid d ops = true) : 0 ≤ ctrRun d ops ∧ ctrRun d ops ≤ longMax := by
  induction ops generalizing d with
  | nil => exact ⟨hd0, hdM⟩
  | cons op t ih =>
    cases op with
    | inc n =>
      simp only [ctrValid, Bool.and_eq_true, decide_eq_true_eq] at hv
      exact ih (increase d n) (increase_nonneg d n hd0 hv.1) (increase_le_longMax d n) hv.2
    | dec k =>
      simp only [ctrValid, Bool.and_eq_true, decide_eq_true_eq] at hv
      obtain ⟨⟨hk0, hkd⟩, hrest⟩ := hv
      have h1 : 0 ≤ decrease d k := by unfold decrease; omega
      have h2 : decrease d k ≤ longMax := le_trans (by unfold decrease; omega) hdM
      exact ih (decrease d k) h1 h2 hrest

/-- C5: on every valid sequence of Demand Counter operations starting
from zero (increases strictly positive, decreases never exceeding the
outstanding count), the outstanding demand stays non-negative and never
exceeds `longMax`; and `increase` saturates at the `longMax` sentinel
instead of overflowing past it. -/
theorem c5_demand_counter_safe :
    (∀ pre suf : List CtrOp, ctrValid 0 (pre ++ suf) = true →
      0 ≤ ctrRun 0 pre ∧ ctrRun 0 pre ≤ longMax) ∧
    (∀ d n : Int, increase d n ≤ longMax ∧ (longMax ≤ d + n → increase d n = longMax)) := by
  constructor
  · intro pre suf h
    exact ctrRun_bounds pre 0 (le_refl 0) (by norm_num [longMax]) (ctrValid_append pre suf 0 h)
  · intro d n
    exact ⟨min_le_right _ _, fun h => min_eq_right h⟩

/-- Witness for C5: the valid sequence `increase 2; decrease 1` stays in
bounds at its prefix, and `increase 1` from `longMax` saturates. -/
theorem c5_witness :
    ctrValid 0 ([CtrOp.inc 2] ++ [CtrOp.dec 1]) = true ∧
    (0 ≤ ctrRun 0 [CtrOp.inc 2] ∧ ctrRun 0 [CtrOp.inc 2] ≤ longMax) ∧
    longMax ≤ longMax + 1 ∧ increase longMax 1 = longMax :=
  ⟨by decide,
   c5_demand_counter_safe.1 [CtrOp.inc 2] [CtrOp.dec 1] (by decide),
   by decide,
   (c5_demand_counter_safe.2 longMax 1).2 (by decide)⟩

/-! ## Lemmas: cancellation -/

theorem foldl_replicate_cancel {α : Type} (k : Nat) (s : SubState α) (h : 1 ≤ k) :
    (List.replicate k Op.cancel).foldl step s = step s Op.cancel := by
  induction k generalizing s with
  | zero => omega
  | succ m ih =>
    by_cases hm : 1 ≤ m
    · rw [List.replicate_succ, List.foldl_cons, ih (step s Op.cancel) hm]
      rfl
    · have hz : m = 0 := by omega
      subst hz
      rfl

/-- C6: `cancel()` is idempotent: on any state a second `cancel` changes
nothing, and on any execution, running two or more consecutive `cancel`
calls yields the same resulting Subscription state (including the log of
delivered signals) as running exactly one. -/
theorem c6_cancel_idempotent :
    (∀ (α : Type) (s : SubState α), cancel (cancel s) = cancel s) ∧
    (∀ (α : Type) (src : List α) (ops₁ ops₂ : List Op) (k : Nat), 1 ≤ k →
      run src (ops₁ ++ List.replicate k Op.cancel ++ ops₂) =
      run src (ops₁ ++ [Op.cancel] ++ ops₂)) := by
  refine ⟨fun α s => rfl, ?_⟩
  intro α src ops₁ ops₂ k hk
  rw [run, run, List.append_assoc, List.append_assoc, List.foldl_append, List.foldl_append,
      List.foldl_append, List.foldl_append, foldl_replicate_cancel k _ hk]
  rfl

/-- Witness for C6: double `cancel` equals single `cancel` on the
concrete execution over source `[1]` followed by a `request 1`. -/
theorem c6_witness :
    (1 : Nat) ≤ 2 ∧
    run ([1] : List Int) ([Op.request 1] ++ List.replicate 2 Op.cancel ++ [Op.request 1]) =
      run ([1] : List Int) ([Op.request 1] ++ [Op.cancel] ++ [Op.request 1]) :=
  ⟨by decide, c6_cancel_idempotent.2 Int [1] [Op.request 1] [Op.request 1] 2 (by decide)⟩

/-- C7: when the Processor's element transform fails on an `onNext`
(modelled by `Except.error`), the failure is caught and converted into
exactly one `onError` signal appended to the downstream log together
with exactly one `cancel` command issued upstream — `procOnNext` returns
this state normally, so nothing propagates back into the upstream
caller; and when the downstream Subscriber cancels, the Processor
forwards `cancel` to its upstream Subscription. -/
theorem c7_processor_contains_failures :
    (∀ (α β : Type) (f : α → Except String β) (s : PState β) (a : α) (msg : String),
      s.terminated = false → f a = Except.error msg →
      procOnNext f s a =
        { downLog := s.downLog ++ [Signal.error]
          upCmds := s.upCmds ++ [UpCmd.cancel]
          terminated := true }) ∧
    (∀ (β : Type) (s : PState β),
      procCancel s =
        { downLog := s.downLog, upCmds := s.upCmds ++ [UpCmd.cancel],
          terminated := true }) := by
  constructor
  · intro α β f s a msg ht hf
    simp [procOnNext, ht, hf]
  · intro β s
    rfl

/-- Witness for C7: a transform that always fails, applied at element 0
in a fresh Processor state, and a downstream `cancel`. -/
theorem c7_witness :
    (({ downLog := [], upCmds := [], terminated := false } : PState Int)).terminated = false ∧
    (fun _ : Int => (Except.error "boom" : Except String Int)) 0 = Except.error "boom" ∧
    procOnNext (fun _ : Int => (Except.error "boom" : Except String Int))
        ({ downLog := [], upCmds := [], terminated := false } : PState Int) 0 =
      { downLog := [Signal.error], upCmds := [UpCmd.cancel], terminated := true } ∧
    procCancel ({ downLog := [Signal.next 7], upCmds := [], terminated := false } : PState Int) =
      { downLog := [Signal.next 7], upCmds := [UpCmd.cancel], terminated := true } :=
  ⟨rfl, rfl,
   c7_processor_contains_failures.1 Int Int _ _ 0 "boom" rfl rfl,
   c7_processor_contains_failures.2 Int _⟩

/-- C9, as stated, is false on the declarations: `Processor` carries no
`export` keyword (in both source files), so it is not part of the
module's exported boundary available to external collaborators. -/
theorem c9_counterexample :
    processorDecl.exported = false ∧ "Processor" ∉ exportedInterfaces := by
  exact ⟨rfl, by decide⟩

/-- C9 (amended): `Processor<T,R>` extends both `Subscriber<T>` and
`Publisher<R>`, but its declaration is not exported, so the module's
exported external boundary consists of only `Publisher`, `Subscriber`
and `Subscription`; `Processor` is a module-private declaration. -/
theorem c9_processor_private_extends_both :
    processorDecl ∈ moduleDecls ∧
    processorDecl.extendsClauses =
      [TSType.app "Subscriber" (TSType.var "T"), TSType.app "Publisher" (TSType.var "R")] ∧
    processorDecl.exported = false ∧
    exportedInterfaces = ["Publisher", "Subscriber", "Subscription"] := by
  refine ⟨by decide, rfl, rfl, by decide⟩

/-- C10: `Publisher<T>.subscribe` is declared generically as
`subscribe<S extends T>(s: Subscriber<S>): void`: instantiating the
method at any type `S` that the subtype oracle accepts as a subtype of
`T` — not only `T` itself — yields a signature accepting a
`Subscriber<S>`. -/
theorem c10_subscribe_generic_subtype :
    publisherDecl.methods = [subscribeMethod] ∧
    subscribeMethod.typeParams = [{ name := "S", constraint := some (TSType.var "T") }] ∧
    subscribeMethod.params = [("s", TSType.app "Subscriber" (TSType.var "S"))] ∧
    subscribeMethod.ret = TSType.voidT ∧
    (∀ (sub : TSType → TSType → Bool) (S : TSType), sub S (TSType.var "T") = true →
      instTypeArg subscribeMethod sub S = some [TSType.app "Subscriber" S]) := by
  refine ⟨rfl, rfl, rfl, rfl, ?_⟩
  intro sub S h
  simp [instTypeArg, subscribeMethod, satisfiesConstraint, substTy, h]

/-- Witness for C10: under an oracle accepting every subtyping claim,
instantiating `subscribe` at the concrete type `string` yields a
parameter of type `Subscriber<string>`. -/
theorem c10_witness :
    (fun (_ _ : TSType) => true) (TSType.base "string") (TSType.var "T") = true ∧
    instTypeArg subscribeMethod (fun _ _ => true) (TSType.base "string") =
      some [TSType.app "Subscriber" (TSType.base "string")] :=
  ⟨rfl, c10_subscribe_generic_subtype.2.2.2.2 (fun _ _ => true) (TSType.base "string") rfl⟩

end ReactiveStreams
